import Mathlib

/-!
Shallow embedding of the slide-video generator (convert_to_movie.py):
page-index extraction from filenames, pairing of slide images with
narration audio, the timeline-building loop of generate_video, and the
resource lifecycle of the assembler.

Modelling conventions:
* a filename is its list of characters (the basename, as the code only
  ever inspects basenames);
* a directory scan is the ordered list of recognized filenames of one
  kind, in the order the glob loops visit them (the code iterates the
  extension set and globs per extension; that visit order is the input
  of the model);
* durations are exact rationals, standing for the float durations the
  code accumulates;
* the two ValueError sites of the script are the two constructors of
  GenError (no-pairs and empty-timeline).
-/

/-- A filename, modelled as its list of characters. -/
abbrev Filename := List Char

/-- Decimal value of a digit run, as computed by int(). -/
def digitsToNat (ds : List Char) : Nat :=
  ds.foldl (fun acc c => acc * 10 + (c.toNat - '0'.toNat)) 0

/-- One scanning pass of re.findall for maximal digit runs; the first
argument is the digit run currently being accumulated. -/
def digitRunsAux : Option (List Char) → List Char → List (List Char)
  | none, [] => []
  | some cur, [] => [cur]
  | none, c :: rest =>
      if c.isDigit then digitRunsAux (some [c]) rest
      else digitRunsAux none rest
  | some cur, c :: rest =>
      if c.isDigit then digitRunsAux (some (cur ++ [c])) rest
      else cur :: digitRunsAux none rest

/-- All maximal digit runs of a filename, left to right
(re.findall of one-or-more digits). -/
def digitRuns (s : List Char) : List (List Char) := digitRunsAux none s

/-- extract_number_from_filename: find all digit runs, take the last
one, parse it as an integer; None when there is no digit. -/
def extract_number_from_filename (s : Filename) : Option Nat :=
  match (digitRuns s).getLast? with
  | some run => some (digitsToNat run)
  | none => none

/-- Replace the value stored under key k, leaving other bindings
unchanged. -/
def updateVal (k : Nat) (v : Filename) (p : Nat × Filename) :
    Nat × Filename :=
  if p.1 == k then (p.1, v) else p

/-- Python dict assignment d[k] = v: overwrite the value if the key is
present (keeping its position), else append the new binding. -/
def dictInsert (m : List (Nat × Filename)) (k : Nat) (v : Filename) :
    List (Nat × Filename) :=
  if (m.lookup k).isSome then
    m.map (updateVal k v)
  else
    m ++ [(k, v)]

/-- One step of the collection loops of find_matching_files: a file with
an extractable number is stored under that number, other files are
skipped silently. -/
def scanStep (m : List (Nat × Filename)) (f : Filename) :
    List (Nat × Filename) :=
  match extract_number_from_filename f with
  | some n => dictInsert m n f
  | none => m

/-- The image_files / audio_files dictionary built by scanning the
directory in the given order. -/
def collectFiles (scan : List Filename) : List (Nat × Filename) :=
  scan.foldl scanStep []

/-- The key list of a dictionary. -/
def keysOf (m : List (Nat × Filename)) : List Nat := m.map Prod.fst

/-- Modelled from the spec: the last file of the scan whose extracted
page index is k ("last-scanned wins"); used only to compare the code's
dictionary against the spec's wording. -/
def lastScanned (p : Filename → Bool) : List Filename → Option Filename
  | [] => none
  | f :: rest =>
      match lastScanned p rest with
      | some g => some g
      | none => if p f then some f else none

/-- The two ValueError sites of the script, as the spec's error
taxonomy names them. -/
inductive GenError where
  | noPairsFound
  | emptyTimeline
deriving DecidableEq, Repr

/-- find_matching_files: build both dictionaries, intersect the key
sets, fail when the intersection is empty, else emit the pairs in
ascending index order. -/
def find_matching_files (imageScan audioScan : List Filename) :
    Except GenError (List (Filename × Filename)) :=
  let image_files := collectFiles imageScan
  let audio_files := collectFiles audioScan
  let common := (keysOf image_files).filter
    (fun n => (audio_files.lookup n).isSome)
  if common.isEmpty then .error .noPairsFound
  else
    .ok ((List.insertionSort (fun a b => a ≤ b) common).filterMap
      (fun n =>
        match image_files.lookup n, audio_files.lookup n with
        | some i, some a => some (i, a)
        | _, _ => none))

/-- A renderable unit of the timeline: a silent pause showing a still
image, or a narrated slide. -/
inductive Segment where
  | pause (image : Filename) (duration : ℚ)
  | slide (image : Filename) (audio : Filename) (duration : ℚ)
deriving DecidableEq

/-- The timeline-building loop of generate_video: i is the loop index,
n the number of slide pairs, clips and total the accumulators. -/
def timelineLoop (dur : Filename → ℚ) (pb pa : ℚ) (n : Nat) :
    Nat → List (Filename × Filename) → List Segment → ℚ →
      List Segment × ℚ
  | _, [], clips, total => (clips, total)
  | i, (img, aud) :: rest, clips, total =>
    let clips1 := if 0 < i ∧ 0 < pb then clips ++ [Segment.pause img pb]
      else clips
    let total1 := if 0 < i ∧ 0 < pb then total + pb else total
    let clips2 := clips1 ++ [Segment.slide img aud (dur aud)]
    let total2 := total1 + dur aud
    let clips3 := if i < n - 1 ∧ 0 < pa then clips2 ++ [Segment.pause img pa]
      else clips2
    let total3 := if i < n - 1 ∧ 0 < pa then total2 + pa else total2
    timelineLoop dur pb pa n (i + 1) rest clips3 total3

/-- The timeline-building stage of generate_video: guard against an
empty pair list, then run the loop from index 0 with empty
accumulators. -/
def build_timeline (dur : Filename → ℚ) (pb pa : ℚ)
    (slide_pairs : List (Filename × Filename)) :
    Except GenError (List Segment × ℚ) :=
  if slide_pairs.isEmpty then .error .emptyTimeline
  else .ok (timelineLoop dur pb pa slide_pairs.length 0 slide_pairs [] 0)

/-- generate_video up to the rendering backend: match the files, then
build the timeline. -/
def generate_video (dur : Filename → ℚ) (pb pa : ℚ)
    (imageScan audioScan : List Filename) :
    Except GenError (List Segment × ℚ) :=
  match find_matching_files imageScan audioScan with
  | .error e => .error e
  | .ok slide_pairs => build_timeline dur pb pa slide_pairs

/-! Resource-lifecycle model of generate_video / create_slide_clip.
Media handles are numbered by an allocation counter; a clip owns the
handles opened for it; each open site can be made to fail by the
failure environment. The finally block of generate_video closes the
final concatenated clip when it exists and then every clip that was
appended to the clips list. -/

/-- The open-handle state: allocation counter plus open handles. -/
structure MState where
  nextId : Nat
  openH : List Nat
deriving DecidableEq

/-- Open one media resource. -/
def acquire (s : MState) : Nat × MState :=
  (s.nextId, ⟨s.nextId + 1, s.openH ++ [s.nextId]⟩)

/-- Which operations of one run fail (indexed by the loop index for
the per-pair open sites). -/
structure FailureEnv where
  pauseBeforeFails : Nat → Bool
  audioOpenFails : Nat → Bool
  slideImageFails : Nat → Bool
  pauseAfterFails : Nat → Bool
  concatFails : Bool
  writeFails : Bool

/-- A clips accumulator: each clip is the list of handles it owns. -/
abbrev Clips := List (List Nat)

/-- Open a pause ImageClip and append it to the clips list; on failure
nothing was opened. -/
def pauseStep (fails : Bool) (clips : Clips) (s : MState) :
    Except (Clips × MState) (Clips × MState) :=
  if fails then .error (clips, s)
  else
    let r := acquire s
    .ok (clips ++ [[r.1]], r.2)

/-- create_slide_clip: open the AudioFileClip, then the ImageClip, and
return the composed clip owning both handles. When the image open
fails, the already-opened audio handle stays open and is returned to
no one. -/
def slideClipStep (env : FailureEnv) (i : Nat) (clips : Clips)
    (s : MState) : Except (Clips × MState) (Clips × MState) :=
  if env.audioOpenFails i then .error (clips, s)
  else
    let ra := acquire s
    if env.slideImageFails i then .error (clips, ra.2)
    else
      let rb := acquire ra.2
      .ok (clips ++ [[rb.1, ra.1]], rb.2)

/-- The clip-building loop of generate_video over the loop indices:
optional pause before, slide clip, optional pause after; a failure
aborts the loop with the clips accumulated so far. -/
def assembleLoop (env : FailureEnv) (pb pa : ℚ) (n : Nat) :
    List Nat → Clips → MState → Except (Clips × MState) (Clips × MState)
  | [], clips, s => .ok (clips, s)
  | i :: rest, clips, s =>
    match (if 0 < i ∧ 0 < pb then pauseStep (env.pauseBeforeFails i) clips s
           else .ok (clips, s)) with
    | .error e => .error e
    | .ok (clips1, s1) =>
      match slideClipStep env i clips1 s1 with
      | .error e => .error e
      | .ok (clips2, s2) =>
        match (if i < n - 1 ∧ 0 < pa then
                 pauseStep (env.pauseAfterFails i) clips2 s2
               else .ok (clips2, s2)) with
        | .error e => .error e
        | .ok (clips3, s3) => assembleLoop env pb pa n rest clips3 s3

/-- clip.close(): release every handle the clip owns. -/
def closeClip (s : MState) (clip : List Nat) : MState :=
  { s with openH := s.openH.filter (fun x => decide (x ∉ clip)) }

/-- The finally block: close the final concatenated clip when it was
created, then close every clip in the clips list. -/
def cleanup (finalClip : Option (List Nat)) (clips : Clips)
    (s : MState) : MState :=
  let s1 := match finalClip with
    | some c => closeClip s c
    | none => s
  clips.foldl closeClip s1

/-- One run of generate_video's assembler stage with n slide pairs,
returning the handles still open after the finally block ran on
whatever exit path was taken. -/
def generate_video_run (env : FailureEnv) (pb pa : ℚ) (n : Nat) :
    List Nat :=
  match assembleLoop env pb pa n (List.range n) [] ⟨0, []⟩ with
  | .error e => (cleanup none e.1 e.2).openH
  | .ok r =>
    if env.concatFails then (cleanup none r.1 r.2).openH
    else
      if env.writeFails then
        (cleanup (some [(acquire r.2).1]) r.1 (acquire r.2).2).openH
      else (cleanup (some [(acquire r.2).1]) r.1 (acquire r.2).2).openH

/-- Failure environment of the concrete leaking run: the slide image
open fails after the audio clip was opened. -/
def leakEnv : FailureEnv :=
  ⟨fun _ => false, fun _ => false, fun _ => true, fun _ => false,
   false, false⟩

/-- Failure environment where concatenation fails but no open site
inside create_slide_clip does. -/
def cleanEnv : FailureEnv :=
  ⟨fun _ => false, fun _ => false, fun _ => false, fun _ => false,
   true, false⟩

/-- Either outcome of a loop step, for stating invariants that hold on
the error and the success path alike. -/
def stepOut (r : Except (Clips × MState) (Clips × MState)) :
    Clips × MState :=
  match r with
  | .error e => e
  | .ok v => v

/-- Every open handle is owned by some clip in the clips list. -/
def InvCS (p : Clips × MState) : Prop :=
  ∀ x ∈ p.2.openH, x ∈ p.1.flatten

/-! ### Lemmas about digit-run extraction -/

theorem digitRunsAux_no_digit (s : List Char)
    (h : ∀ c ∈ s, c.isDigit = false) :
    ∀ st : Option (List Char),
      digitRunsAux st s =
        match st with
        | some cur => [cur]
        | none => [] := by
  induction s with
  | nil => intro st; cases st <;> rfl
  | cons c rest ih =>
      intro st
      have hc : c.isDigit = false := h c (by simp)
      have hrest : ∀ x ∈ rest, x.isDigit = false :=
        fun x hx => h x (by simp [hx])
      cases st <;> simp [digitRunsAux, hc, ih hrest]

theorem digitRunsAux_digits (run : List Char)
    (hrun : ∀ c ∈ run, c.isDigit = true) :
    ∀ (cur v : List Char),
      digitRunsAux (some cur) (run ++ v) =
        digitRunsAux (some (cur ++ run)) v := by
  induction run with
  | nil => intro cur v; simp
  | cons c rest ih =>
      intro cur v
      have hc : c.isDigit = true := hrun c (by simp)
      have hrest : ∀ x ∈ rest, x.isDigit = true :=
        fun x hx => hrun x (by simp [hx])
      simp [digitRunsAux, hc, ih hrest (cur ++ [c]) v]

theorem digitRunsAux_flush (u : List Char) (c : Char)
    (hc : c.isDigit = false) :
    ∀ (t : List Char) (st : Option (List Char)),
      digitRunsAux st ((u ++ [c]) ++ t) =
        digitRunsAux st (u ++ [c]) ++ digitRunsAux none t := by
  induction u with
  | nil =>
      intro t st
      cases st <;> simp [digitRunsAux, hc]
  | cons d u2 ih =>
      intro t st
      cases st with
      | none =>
          by_cases hd : d.isDigit
          · simp only [List.cons_append, digitRunsAux, hd, if_true,
              List.append_eq]
            exact ih t (some [d])
          · simp only [List.cons_append, digitRunsAux, hd, if_false,
              List.append_eq]
            exact ih t none
      | some cur =>
          by_cases hd : d.isDigit
          · simp only [List.cons_append, digitRunsAux, hd, if_true,
              List.append_eq]
            exact ih t (some (cur ++ [d]))
          · simp only [List.cons_append, digitRunsAux, hd, if_false,
              List.cons_append, List.append_eq]
            rw [ih t none]
            simp

theorem digitRuns_last_run (u run v : List Char)
    (hu : u = [] ∨ ∃ u2 c, u = u2 ++ [c] ∧ c.isDigit = false)
    (hrun : run ≠ []) (hd : ∀ c ∈ run, c.isDigit = true)
    (hv : ∀ c ∈ v, c.isDigit = false) :
    digitRuns (u ++ run ++ v) = digitRuns u ++ [run] := by
  have hcore : digitRunsAux none (run ++ v) = [run] := by
    cases run with
    | nil => exact absurd rfl hrun
    | cons r rs =>
        have hr : r.isDigit = true := hd r (by simp)
        have hrs : ∀ x ∈ rs, x.isDigit = true :=
          fun x hx => hd x (by simp [hx])
        simp only [List.cons_append, digitRuns, digitRunsAux, hr, if_true,
          List.append_eq]
        rw [digitRunsAux_digits rs hrs [r] v, digitRunsAux_no_digit v hv]
        simp
  rcases hu with rfl | ⟨u2, c, rfl, hcnd⟩
  · simpa [digitRuns] using hcore
  · unfold digitRuns
    rw [List.append_assoc (u2 ++ [c]) run v,
      digitRunsAux_flush u2 c hcnd (run ++ v) none, hcore]

/-- C4: index extraction finds all maximal digit runs of the filename
and returns the integer value of the last one (a run preceded by a
non-digit or the start of the name, followed by no further digit);
a filename with no digit yields no index, and the collection loop
skips such a file silently, leaving the dictionary untouched and
raising no error. -/
theorem spec_C4_index_extraction :
    (∀ u run v : List Char,
        (u = [] ∨ ∃ u2 c, u = u2 ++ [c] ∧ c.isDigit = false) →
        run ≠ [] →
        (∀ c ∈ run, c.isDigit = true) →
        (∀ c ∈ v, c.isDigit = false) →
        extract_number_from_filename (u ++ run ++ v) =
          some (digitsToNat run)) ∧
    (∀ s : Filename, (∀ c ∈ s, c.isDigit = false) →
        extract_number_from_filename s = none) ∧
    (∀ (l1 l2 : List Filename) (s : Filename),
        (∀ c ∈ s, c.isDigit = false) →
        collectFiles (l1 ++ s :: l2) = collectFiles (l1 ++ l2)) := by
  have hnone : ∀ s : Filename, (∀ c ∈ s, c.isDigit = false) →
      extract_number_from_filename s = none := by
    intro s hs
    unfold extract_number_from_filename digitRuns
    rw [digitRunsAux_no_digit s hs none]
    rfl
  refine ⟨?_, hnone, ?_⟩
  · intro u run v hu hrun hd hv
    unfold extract_number_from_filename
    rw [digitRuns_last_run u run v hu hrun hd hv, List.getLast?_concat]
  · intro l1 l2 s hs
    simp [collectFiles, List.foldl_append, scanStep, hnone s hs]

/-- Witness for C4 at concrete filenames. -/
theorem spec_C4_witness :
    extract_number_from_filename (("ab12cd7xy").data) = some 7 ∧
    extract_number_from_filename (("slide").data) = none ∧
    collectFiles ([("a1.png").data] ++ ("nodigits.png").data :: []) =
      collectFiles ([("a1.png").data] ++ []) := by
  refine ⟨?_, ?_, ?_⟩
  · exact spec_C4_index_extraction.1 (("ab12cd").data) (("7").data)
      (("xy").data)
      (Or.inr ⟨("ab12c").data, 'd', by decide⟩)
      (by decide) (by decide) (by decide)
  · exact spec_C4_index_extraction.2.1 (("slide").data) (by decide)
  · exact spec_C4_index_extraction.2.2 [("a1.png").data] []
      (("nodigits.png").data) (by decide)

/-! ### Lemmas about the index dictionaries -/

theorem lookup_map_update (k : Nat) (v : Filename) :
    ∀ (m : List (Nat × Filename)) (j : Nat),
      (m.map (updateVal k v)).lookup j =
        if j = k then (if (m.lookup k).isSome then some v else none)
        else m.lookup j := by
  intro m
  induction m with
  | nil => intro j; by_cases h : j = k <;> simp [h]
  | cons p t ih =>
      intro j
      obtain ⟨a, b⟩ := p
      rw [List.map_cons]
      by_cases hak : a = k
      · subst hak
        have hhead : updateVal a v (a, b) = (a, v) := by simp [updateVal]
        rw [hhead]
        by_cases hj : j = a
        · subst hj
          simp [List.lookup_cons_self]
        · have h1 : (j == a) = false := beq_false_of_ne hj
          simp [List.lookup_cons, h1, hj, ih j]
      · have hka : (k == a) = false :=
          beq_false_of_ne (fun h => hak h.symm)
        have hhead : updateVal k v (a, b) = (a, b) := by
          simp [updateVal, beq_false_of_ne hak]
        rw [hhead]
        by_cases hj : j = a
        · subst hj
          simp [List.lookup_cons_self, List.lookup_cons, hak, hka]
        · have h1 : (j == a) = false := beq_false_of_ne hj
          simp only [List.lookup_cons, h1, hka]
          exact ih j

theorem lookup_append_single (m : List (Nat × Filename)) (k : Nat)
    (v : Filename) (j : Nat) :
    (m ++ [(k, v)]).lookup j =
      match m.lookup j with
      | some w => some w
      | none => if j = k then some v else none := by
  induction m with
  | nil =>
      by_cases hj : j = k
      · subst hj; simp [List.lookup_cons]
      · have h1 : (j == k) = false := beq_false_of_ne hj
        simp [List.lookup_cons, h1, hj]
  | cons p t ih =>
      obtain ⟨a, b⟩ := p
      by_cases hj : j = a
      · subst hj; simp [List.lookup_cons]
      · have h1 : (j == a) = false := beq_false_of_ne hj
        simp [List.lookup_cons, h1, ih]

theorem dictInsert_lookup (m : List (Nat × Filename)) (k : Nat)
    (v : Filename) (j : Nat) :
    (dictInsert m k v).lookup j = if j = k then some v else m.lookup j := by
  unfold dictInsert
  by_cases hp : (m.lookup k).isSome
  · rw [if_pos hp, lookup_map_update]
    simp [hp]
  · rw [if_neg hp, lookup_append_single]
    by_cases hj : j = k
    · subst hj
      have hnone : m.lookup j = none := by
        cases h : m.lookup j
        · rfl
        · exact absurd (by simp [h]) hp
      simp [hnone]
    · cases h : m.lookup j <;> simp [hj, h]

theorem keysOf_dictInsert_of_mem (m : List (Nat × Filename)) (k : Nat)
    (v : Filename) (h : (m.lookup k).isSome) :
    keysOf (dictInsert m k v) = keysOf m := by
  unfold dictInsert keysOf
  rw [if_pos h, List.map_map]
  apply List.map_congr_left
  intro p _
  by_cases hk : p.1 = k
  · simp [Function.comp, updateVal, hk]
  · simp [Function.comp, updateVal, beq_false_of_ne hk]

theorem keysOf_dictInsert_of_not_mem (m : List (Nat × Filename)) (k : Nat)
    (v : Filename) (h : ¬(m.lookup k).isSome) :
    keysOf (dictInsert m k v) = keysOf m ++ [k] := by
  unfold dictInsert keysOf
  rw [if_neg h]
  simp

theorem lookup_isSome_iff_mem_keysOf (m : List (Nat × Filename)) (k : Nat) :
    (m.lookup k).isSome ↔ k ∈ keysOf m := by
  rw [List.lookup_isSome_iff]
  constructor
  · rintro ⟨p, hp, hkp⟩
    simp only [beq_iff_eq] at hkp
    subst hkp
    exact List.mem_map_of_mem _ hp
  · intro hk
    rw [keysOf, List.mem_map] at hk
    obtain ⟨p, hp, rfl⟩ := hk
    exact ⟨p, hp, by simp⟩

theorem lookup_eq_some_mem (m : List (Nat × Filename)) (k : Nat)
    (v : Filename) (h : m.lookup k = some v) : (k, v) ∈ m := by
  induction m with
  | nil => simp at h
  | cons p t ih =>
      obtain ⟨a, b⟩ := p
      by_cases hk : k = a
      · subst hk
        rw [List.lookup_cons_self] at h
        simp at h
        simp [h]
      · rw [List.lookup_cons] at h
        simp only [beq_false_of_ne hk] at h
        exact List.mem_cons_of_mem _ (ih h)

theorem collectFiles_invariant (P : List (Nat × Filename) → Prop)
    (hstep : ∀ m f, P m → P (scanStep m f)) :
    ∀ (scan : List Filename) (m : List (Nat × Filename)),
      P m → P (scan.foldl scanStep m) := by
  intro scan
  induction scan with
  | nil => intro m hm; simpa using hm
  | cons f rest ih =>
      intro m hm
      simpa using ih (scanStep m f) (hstep m f hm)

theorem collectFiles_keys_nodup (scan : List Filename) :
    (keysOf (collectFiles scan)).Nodup := by
  refine collectFiles_invariant (fun m => (keysOf m).Nodup) ?_ scan []
    (by simp [keysOf])
  intro m f hm
  rcases hext : extract_number_from_filename f with _ | n
  · simpa [scanStep, hext] using hm
  · rw [show scanStep m f = dictInsert m n f from by simp [scanStep, hext]]
    by_cases hp : (m.lookup n).isSome
    · rw [keysOf_dictInsert_of_mem m n f hp]; exact hm
    · rw [keysOf_dictInsert_of_not_mem m n f hp]
      have hn : n ∉ keysOf m := by
        rw [← lookup_isSome_iff_mem_keysOf]; exact hp
      simp [List.nodup_append, hm, hn]

theorem collectFiles_extract (scan : List Filename) :
    ∀ p ∈ collectFiles scan,
      extract_number_from_filename p.2 = some p.1 := by
  refine collectFiles_invariant
    (fun m => ∀ p ∈ m, extract_number_from_filename p.2 = some p.1) ?_
    scan [] (by simp)
  intro m f hm
  rcases hext : extract_number_from_filename f with _ | n
  · simpa [scanStep, hext] using hm
  · rw [show scanStep m f = dictInsert m n f from by simp [scanStep, hext]]
    unfold dictInsert
    by_cases hp : (m.lookup n).isSome
    · rw [if_pos hp]
      intro p hp2
      rw [List.mem_map] at hp2
      obtain ⟨q, hq, rfl⟩ := hp2
      by_cases hqn : q.1 = n
      · have hb : updateVal n f q = (q.1, f) := by simp [updateVal, hqn]
        rw [hb]
        simpa [hqn] using hext
      · have hb : updateVal n f q = q := by
          simp [updateVal, beq_false_of_ne hqn]
        rw [hb]
        exact hm q hq
    · rw [if_neg hp]
      intro p hp2
      rcases List.mem_append.mp hp2 with h | h
      · exact hm p h
      · simp only [List.mem_singleton] at h
        simp [h, hext]

theorem collectFiles_lookup_extract (scan : List Filename) (k : Nat)
    (f : Filename) (h : (collectFiles scan).lookup k = some f) :
    extract_number_from_filename f = some k :=
  collectFiles_extract scan (k, f) (lookup_eq_some_mem _ _ _ h)

theorem scanStep_lookup (m : List (Nat × Filename)) (f : Filename)
    (k : Nat) :
    (scanStep m f).lookup k =
      if extract_number_from_filename f == some k then some f
      else m.lookup k := by
  rcases hext : extract_number_from_filename f with _ | n
  · simp [scanStep, hext]
  · rw [show scanStep m f = dictInsert m n f from by simp [scanStep, hext],
      dictInsert_lookup]
    by_cases hnk : k = n
    · subst hnk; simp [hext]
    · have hb : ((some n : Option Nat) == some k) = false :=
        beq_false_of_ne (fun h => (Ne.symm hnk) (Option.some.inj h))
      simp [hext, hb, hnk]

theorem foldl_scanStep_lookup (k : Nat) :
    ∀ (scan : List Filename) (m : List (Nat × Filename)),
      (scan.foldl scanStep m).lookup k =
        match lastScanned
            (fun f => extract_number_from_filename f == some k) scan with
        | some g => some g
        | none => m.lookup k := by
  intro scan
  induction scan with
  | nil => intro m; rfl
  | cons f rest ih =>
      intro m
      rw [List.foldl_cons, ih (scanStep m f)]
      cases hl : lastScanned
          (fun g => extract_number_from_filename g == some k) rest with
      | some g => simp [lastScanned, hl]
      | none =>
          simp only [lastScanned, hl]
          rw [scanStep_lookup]
          by_cases hx : (extract_number_from_filename f == some k) = true
          · rw [if_pos hx, if_pos hx]
          · rw [if_neg hx, if_neg hx]

theorem find_matching_files_eq_error (imgs auds : List Filename)
    (h : (keysOf (collectFiles imgs)).filter
      (fun n => ((collectFiles auds).lookup n).isSome) = []) :
    find_matching_files imgs auds = .error .noPairsFound := by
  simp only [find_matching_files]
  rw [if_pos (by simp [h])]

theorem find_matching_files_eq_ok (imgs auds : List Filename)
    (h : (keysOf (collectFiles imgs)).filter
      (fun n => ((collectFiles auds).lookup n).isSome) ≠ []) :
    find_matching_files imgs auds = .ok
      ((List.insertionSort (fun a b => a ≤ b)
        ((keysOf (collectFiles imgs)).filter
          (fun n => ((collectFiles auds).lookup n).isSome))).filterMap
        (fun n =>
          match (collectFiles imgs).lookup n,
              (collectFiles auds).lookup n with
          | some i, some a => some (i, a)
          | _, _ => none)) := by
  simp only [find_matching_files]
  rw [if_neg (by simp [h])]

/-- C9 counterexample: the winner of a contested page index is not a
function of the directory contents alone. The two image scans below
are permutations of the same set of files — two visit orders of one
directory, as the extension-set iteration and glob order of the code
may produce — yet find_matching_files returns two different pair
lists for the contested index 7. -/
theorem spec_C9_counterexample :
    List.Perm [("a7.png").data, ("b7.jpg").data]
      [("b7.jpg").data, ("a7.png").data] ∧
    find_matching_files [("a7.png").data, ("b7.jpg").data]
      [("x7.wav").data] =
      .ok [(("b7.jpg").data, ("x7.wav").data)] ∧
    find_matching_files [("b7.jpg").data, ("a7.png").data]
      [("x7.wav").data] =
      .ok [(("a7.png").data, ("x7.wav").data)] ∧
    [(("b7.jpg").data, ("x7.wav").data)] ≠
      [(("a7.png").data, ("x7.wav").data)] :=
  ⟨by decide, rfl, rfl, by decide⟩

/-- C9, amended: when several files of one kind map to the same page
index, the association is explicitly defined relative to the order in
which the scan visits the files, never silently arbitrary within a
run: for every index, the dictionary holds exactly the last visited
file whose extracted index is that index (last-scanned wins), so the
dictionary — and hence the returned pair list — is a deterministic
function of the scan-ordered directory listing. The visit order
itself (extension-set iteration and glob order) is an input of the
model and is not determined by the directory contents, as the
counterexample shows. -/
theorem spec_C9_last_scanned_wins (scan : List Filename) (k : Nat) :
    (collectFiles scan).lookup k =
      lastScanned (fun f => extract_number_from_filename f == some k)
        scan := by
  rw [collectFiles, foldl_scanStep_lookup k scan []]
  cases hl : lastScanned
      (fun f => extract_number_from_filename f == some k) scan <;>
    simp [hl]

/-- C3: find_matching_files fails with the no-pairs error exactly when
the intersection of the image and audio index sets is empty, and
returns normally whenever the intersection is inhabited. -/
theorem spec_C3_no_pairs_error (imgs auds : List Filename) :
    (find_matching_files imgs auds = .error .noPairsFound ↔
      ∀ n ∈ keysOf (collectFiles imgs),
        n ∉ keysOf (collectFiles auds)) ∧
    ((∃ n, n ∈ keysOf (collectFiles imgs) ∧
        n ∈ keysOf (collectFiles auds)) →
      ∃ ps, find_matching_files imgs auds = .ok ps) := by
  have hcomm : ∀ n, n ∈ (keysOf (collectFiles imgs)).filter
      (fun x => ((collectFiles auds).lookup x).isSome) ↔
      (n ∈ keysOf (collectFiles imgs) ∧
        n ∈ keysOf (collectFiles auds)) := by
    intro n
    rw [List.mem_filter, lookup_isSome_iff_mem_keysOf]
  by_cases hC : (keysOf (collectFiles imgs)).filter
      (fun x => ((collectFiles auds).lookup x).isSome) = []
  · have hfind := find_matching_files_eq_error imgs auds hC
    refine ⟨⟨fun _ n hn hmem => ?_, fun _ => hfind⟩, ?_⟩
    · have hmem2 : n ∈ (keysOf (collectFiles imgs)).filter
          (fun x => ((collectFiles auds).lookup x).isSome) :=
        (hcomm n).mpr ⟨hn, hmem⟩
      rw [hC] at hmem2
      simp at hmem2
    · rintro ⟨n, hn1, hn2⟩
      have hmem2 : n ∈ (keysOf (collectFiles imgs)).filter
          (fun x => ((collectFiles auds).lookup x).isSome) :=
        (hcomm n).mpr ⟨hn1, hn2⟩
      rw [hC] at hmem2
      simp at hmem2
  · have hfind := find_matching_files_eq_ok imgs auds hC
    refine ⟨⟨fun herr => ?_, fun hall => ?_⟩, fun _ => ⟨_, hfind⟩⟩
    · rw [hfind] at herr
      simp at herr
    · exfalso
      obtain ⟨n, hn⟩ := List.exists_mem_of_ne_nil _ hC
      obtain ⟨h1, h2⟩ := (hcomm n).mp hn
      exact hall n h1 h2

/-- Witness for C3: disjoint index sets fail, a shared index succeeds. -/
theorem spec_C3_witness :
    find_matching_files [("a1.png").data] [("b2.wav").data] =
        .error .noPairsFound ∧
    ∃ ps, find_matching_files [("a1.png").data] [("b1.wav").data] =
        .ok ps := by
  constructor
  · exact (spec_C3_no_pairs_error [("a1.png").data]
      [("b2.wav").data]).1.mpr (by decide)
  · exact (spec_C3_no_pairs_error [("a1.png").data]
      [("b1.wav").data]).2 ⟨1, by decide, by decide⟩

theorem filterMap_pairs_spec (IF AF : List (Nat × Filename)) :
    ∀ l : List Nat,
      (∀ n ∈ l, ∃ i a2, IF.lookup n = some i ∧ AF.lookup n = some a2 ∧
        extract_number_from_filename i = some n) →
      ((l.filterMap (fun n =>
          match IF.lookup n, AF.lookup n with
          | some i, some a => some (i, a)
          | _, _ => none)).length = l.length ∧
       (l.filterMap (fun n =>
          match IF.lookup n, AF.lookup n with
          | some i, some a => some (i, a)
          | _, _ => none)).filterMap
          (fun p => extract_number_from_filename p.1) = l) := by
  intro l
  induction l with
  | nil => simp
  | cons n t ih =>
      intro h
      obtain ⟨i, a2, hi, ha2, hx⟩ := h n (by simp)
      have ht := ih (fun x hx2 => h x (by simp [hx2]))
      simp [List.filterMap_cons, hi, ha2, ht.1, ht.2, hx]

/-- C2: on a directory whose image and audio index sets coincide and
are non-empty, the matcher returns exactly one pair per index, every
returned pair carries a page index, and those indices are strictly
ascending. -/
theorem spec_C2_matcher_pairs (imgs auds : List Filename)
    (hsub1 : ∀ n ∈ keysOf (collectFiles imgs),
      n ∈ keysOf (collectFiles auds))
    (_hsub2 : ∀ n ∈ keysOf (collectFiles auds),
      n ∈ keysOf (collectFiles imgs))
    (hne : keysOf (collectFiles imgs) ≠ []) :
    ∃ ps, find_matching_files imgs auds = .ok ps ∧
      ps.length = (keysOf (collectFiles imgs)).length ∧
      (ps.filterMap (fun p => extract_number_from_filename p.1)).length
        = ps.length ∧
      List.Sorted (· < ·)
        (ps.filterMap (fun p => extract_number_from_filename p.1)) := by
  have hfil : (keysOf (collectFiles imgs)).filter
      (fun n => ((collectFiles auds).lookup n).isSome)
      = keysOf (collectFiles imgs) := by
    rw [List.filter_eq_self]
    intro n hn
    exact (lookup_isSome_iff_mem_keysOf _ n).mpr (hsub1 n hn)
  have hCne : (keysOf (collectFiles imgs)).filter
      (fun n => ((collectFiles auds).lookup n).isSome) ≠ [] := by
    rw [hfil]; exact hne
  have hfind := find_matching_files_eq_ok imgs auds hCne
  rw [hfil] at hfind
  have hperm := List.perm_insertionSort (fun a b => a ≤ b)
    (keysOf (collectFiles imgs))
  have hlookup : ∀ n ∈ List.insertionSort (fun a b => a ≤ b)
      (keysOf (collectFiles imgs)),
      ∃ i a2, (collectFiles imgs).lookup n = some i ∧
        (collectFiles auds).lookup n = some a2 ∧
        extract_number_from_filename i = some n := by
    intro n hn
    rw [hperm.mem_iff] at hn
    have h1 : ((collectFiles imgs).lookup n).isSome :=
      (lookup_isSome_iff_mem_keysOf _ n).mpr hn
    have h2 : ((collectFiles auds).lookup n).isSome :=
      (lookup_isSome_iff_mem_keysOf _ n).mpr (hsub1 n hn)
    obtain ⟨i, hi⟩ := Option.isSome_iff_exists.mp h1
    obtain ⟨a2, ha2⟩ := Option.isSome_iff_exists.mp h2
    exact ⟨i, a2, hi, ha2, collectFiles_lookup_extract imgs n i hi⟩
  obtain ⟨hlen, hidx⟩ := filterMap_pairs_spec (collectFiles imgs)
    (collectFiles auds) _ hlookup
  refine ⟨_, hfind, ?_, ?_, ?_⟩
  · rw [hlen, List.length_insertionSort]
  · rw [hidx, hlen]
  · rw [hidx]
    have hs := List.sorted_insertionSort (fun a b => a ≤ b)
      (keysOf (collectFiles imgs))
    have hnd : (List.insertionSort (fun a b => a ≤ b)
        (keysOf (collectFiles imgs))).Nodup :=
      (hperm.nodup_iff).mpr (collectFiles_keys_nodup imgs)
    exact hs.lt_of_le hnd

/-- Witness for C2 with two pairs given in scrambled scan order. -/
theorem spec_C2_witness :
    ∃ ps, find_matching_files [("b2.png").data, ("a1.png").data]
        [("a1.wav").data, ("b2.wav").data] = .ok ps ∧
      ps.length = (keysOf (collectFiles
        [("b2.png").data, ("a1.png").data])).length ∧
      (ps.filterMap (fun p => extract_number_from_filename p.1)).length
        = ps.length ∧
      List.Sorted (· < ·)
        (ps.filterMap (fun p => extract_number_from_filename p.1)) :=
  spec_C2_matcher_pairs _ _ (by decide) (by decide) (by decide)

/-- C10: the empty-pairs guard of generate_video is dead code:
find_matching_files either fails or returns at least one pair, so the
empty-timeline error can never surface from generate_video. -/
theorem spec_C10_nonempty_pairs :
    (∀ (imgs auds : List Filename) ps,
        find_matching_files imgs auds = .ok ps → ps ≠ []) ∧
    (∀ (dur : Filename → ℚ) (pb pa : ℚ) (imgs auds : List Filename),
        generate_video dur pb pa imgs auds ≠ .error .emptyTimeline) := by
  have hmain : ∀ (imgs auds : List Filename) ps,
      find_matching_files imgs auds = .ok ps → ps ≠ [] := by
    intro imgs auds ps hok
    by_cases hC : (keysOf (collectFiles imgs)).filter
        (fun n => ((collectFiles auds).lookup n).isSome) = []
    · rw [find_matching_files_eq_error imgs auds hC] at hok
      simp at hok
    · have hfind := find_matching_files_eq_ok imgs auds hC
      rw [hfind] at hok
      simp only [Except.ok.injEq] at hok
      subst hok
      intro hnil
      rw [List.filterMap_eq_nil_iff] at hnil
      have hsne : List.insertionSort (fun a b => a ≤ b)
          ((keysOf (collectFiles imgs)).filter
            (fun n => ((collectFiles auds).lookup n).isSome)) ≠ [] := by
        intro h0
        apply hC
        have hp := List.perm_insertionSort (fun a b => a ≤ b)
          ((keysOf (collectFiles imgs)).filter
            (fun n => ((collectFiles auds).lookup n).isSome))
        rw [h0] at hp
        exact (hp.symm.eq_nil)
      obtain ⟨n, hn⟩ := List.exists_mem_of_ne_nil _ hsne
      have hnC : n ∈ (keysOf (collectFiles imgs)).filter
          (fun x => ((collectFiles auds).lookup x).isSome) :=
        (List.perm_insertionSort _ _).subset hn
      rw [List.mem_filter] at hnC
      obtain ⟨hn1, hn2⟩ := hnC
      have h1 : ((collectFiles imgs).lookup n).isSome :=
        (lookup_isSome_iff_mem_keysOf _ n).mpr hn1
      obtain ⟨i, hi⟩ := Option.isSome_iff_exists.mp h1
      obtain ⟨a2, ha2⟩ := Option.isSome_iff_exists.mp hn2
      have hcontra := hnil n hn
      rw [hi, ha2] at hcontra
      simp at hcontra
  refine ⟨hmain, ?_⟩
  intro dur pb pa imgs auds
  rcases hf : find_matching_files imgs auds with e | ps
  · simp only [generate_video, hf]
    have he : e = GenError.noPairsFound := by
      by_cases hC : (keysOf (collectFiles imgs)).filter
          (fun n => ((collectFiles auds).lookup n).isSome) = []
      · rw [find_matching_files_eq_error imgs auds hC] at hf
        injection hf with h2
        exact h2.symm
      · rw [find_matching_files_eq_ok imgs auds hC] at hf
        simp at hf
    subst he
    simp
  · simp only [generate_video, hf]
    have hne := hmain imgs auds ps hf
    unfold build_timeline
    rw [if_neg (by simpa using hne)]
    simp

/-- Witness for C10 on a one-pair directory. -/
theorem spec_C10_witness :
    ([(("a1.png").data, ("b1.wav").data)] :
      List (Filename × Filename)) ≠ [] :=
  spec_C10_nonempty_pairs.1 [("a1.png").data] [("b1.wav").data]
    [(("a1.png").data, ("b1.wav").data)] rfl

/-! ### Lemmas about the timeline-building loop -/

theorem timelineLoop_total (dur : Filename → ℚ) (pb pa : ℚ)
    (hpb : 0 ≤ pb) (hpa : 0 ≤ pa) (n : Nat) :
    ∀ (l : List (Filename × Filename)) (i : Nat) (clips : List Segment)
      (total : ℚ), i + l.length = n →
      (timelineLoop dur pb pa n i l clips total).2 =
        total + (l.map (fun p => dur p.2)).sum
          + (if i = 0 then ((l.length - 1 : ℕ) : ℚ)
             else (l.length : ℚ)) * pb
          + ((l.length - 1 : ℕ) : ℚ) * pa := by
  intro l
  induction l with
  | nil =>
      intro i clips total hn
      simp [timelineLoop]
  | cons hd t ih =>
      intro i clips total hn
      obtain ⟨img, aud⟩ := hd
      simp only [timelineLoop]
      rw [ih (i + 1) _ _ (by simp at hn ⊢; omega)]
      have hn1 : n - 1 = i + t.length := by
        simp at hn; omega
      simp only [hn1, List.length_cons, List.map_cons, List.sum_cons]
      rcases Nat.eq_zero_or_pos t.length with ht | ht
      · have htn : (t.map (fun p => dur p.2)).sum =
            (t.map (fun p => dur p.2)).sum := rfl
        simp only [ht]
        have hpa0 : ¬(i < i + 0 ∧ 0 < pa) := by
          rintro ⟨h1, _⟩; omega
        rw [if_neg hpa0]
        by_cases hi : i = 0
        · subst hi
          have hpb0 : ¬((0 : ℕ) < 0 ∧ 0 < pb) := by
            rintro ⟨h1, _⟩; omega
          rw [if_neg hpb0, if_pos rfl,
            if_neg (by omega : ¬(0 : ℕ) + 1 = 0)]
          push_cast
          ring
        · rw [if_neg hi, if_neg (by omega : ¬i + 1 = 0)]
          rcases eq_or_lt_of_le hpb with hpb2 | hpb2
          · have hcond : ¬(0 < i ∧ 0 < pb) := by
              rintro ⟨_, h2⟩
              rw [← hpb2] at h2
              exact lt_irrefl 0 h2
            rw [if_neg hcond, ← hpb2]
            push_cast
            ring
          · rw [if_pos ⟨Nat.pos_of_ne_zero hi, hpb2⟩]
            push_cast
            ring
      · have hpos : i < i + t.length := by omega
        have h1t : 1 ≤ t.length := ht
        have hc1 : ((t.length - 1 : ℕ) : ℚ) = (t.length : ℚ) - 1 := by
          push_cast [Nat.cast_sub h1t]
          ring
        by_cases hi : i = 0
        · subst hi
          have hpb0 : ¬((0 : ℕ) < 0 ∧ 0 < pb) := by
            rintro ⟨h1, _⟩; omega
          rw [if_neg hpb0, if_pos rfl, if_neg (by omega : ¬(0 : ℕ) + 1 = 0)]
          rcases eq_or_lt_of_le hpa with hpa2 | hpa2
          · have hcond : ¬((0 : ℕ) < 0 + t.length ∧ 0 < pa) := by
              rintro ⟨_, h2⟩
              rw [← hpa2] at h2
              exact lt_irrefl 0 h2
            rw [if_neg hcond, hc1, ← hpa2]
            push_cast
            ring
          · rw [if_pos ⟨hpos, hpa2⟩, hc1]
            push_cast
            ring
        · rw [if_neg hi, if_neg (by omega : ¬i + 1 = 0)]
          have hrewpb : (if 0 < i ∧ 0 < pb then total + pb else total)
              = total + pb := by
            rcases eq_or_lt_of_le hpb with hpb2 | hpb2
            · have hcond : ¬(0 < i ∧ 0 < pb) := by
                rintro ⟨_, h2⟩
                rw [← hpb2] at h2
                exact lt_irrefl 0 h2
              rw [if_neg hcond, ← hpb2]
              ring
            · rw [if_pos ⟨Nat.pos_of_ne_zero hi, hpb2⟩]
          rw [hrewpb]
          rcases eq_or_lt_of_le hpa with hpa2 | hpa2
          · have hcond : ¬(i < i + t.length ∧ 0 < pa) := by
              rintro ⟨_, h2⟩
              rw [← hpa2] at h2
              exact lt_irrefl 0 h2
            rw [if_neg hcond, hc1, ← hpa2]
            push_cast
            ring
          · rw [if_pos ⟨hpos, hpa2⟩, hc1]
            push_cast
            ring

/-- C1: for a non-empty pair list and non-negative pauses, the total
duration accumulated by the timeline-building loop is exactly the sum
of the audio durations plus (n-1) pauses before and (n-1) pauses
after: no pause is counted before the first or after the last slide. -/
theorem spec_C1_total_duration (dur : Filename → ℚ) (pb pa : ℚ)
    (pairs : List (Filename × Filename))
    (hne : pairs ≠ []) (hpb : 0 ≤ pb) (hpa : 0 ≤ pa) :
    ∃ segs, build_timeline dur pb pa pairs = .ok
      (segs, (pairs.map (fun p => dur p.2)).sum
        + ((pairs.length - 1 : ℕ) : ℚ) * pb
        + ((pairs.length - 1 : ℕ) : ℚ) * pa) := by
  refine ⟨(timelineLoop dur pb pa pairs.length 0 pairs [] 0).1, ?_⟩
  have hie : pairs.isEmpty = false := by
    rw [List.isEmpty_eq_false]
    exact hne
  unfold build_timeline
  rw [hie]
  simp only [Bool.false_eq_true, if_false]
  have htot := timelineLoop_total dur pb pa hpb hpa pairs.length pairs 0
    [] 0 (by simp)
  rw [if_pos rfl, zero_add] at htot
  have hx : timelineLoop dur pb pa pairs.length 0 pairs [] 0 =
      ((timelineLoop dur pb pa pairs.length 0 pairs [] 0).1,
       (pairs.map (fun p => dur p.2)).sum
         + ((pairs.length - 1 : ℕ) : ℚ) * pb
         + ((pairs.length - 1 : ℕ) : ℚ) * pa) := by
    rw [← htot]
  rw [hx]

/-- Witness for C1 with two pairs, audio length 3 each, pauses 1 and 2. -/
theorem spec_C1_witness :
    ∃ segs, build_timeline (fun _ => 3) 1 2
        [(("a1.png").data, ("a1.wav").data),
         (("a2.png").data, ("a2.wav").data)] = .ok
      (segs, ([(("a1.png").data, ("a1.wav").data),
         (("a2.png").data, ("a2.wav").data)].map
           (fun p => (fun _ => (3 : ℚ)) p.2)).sum
        + (([(("a1.png").data, ("a1.wav").data),
         (("a2.png").data, ("a2.wav").data)].length - 1 : ℕ) : ℚ) * 1
        + (([(("a1.png").data, ("a1.wav").data),
         (("a2.png").data, ("a2.wav").data)].length - 1 : ℕ) : ℚ) * 2) :=
  spec_C1_total_duration (fun _ => 3) 1 2
    [(("a1.png").data, ("a1.wav").data),
     (("a2.png").data, ("a2.wav").data)]
    (by simp) (by norm_num) (by norm_num)

/-- C5: with exactly one slide pair the loop emits a single slide clip
and no pause segment for any pause values, and the total duration is
that pair's audio duration. -/
theorem spec_C5_single_pair (dur : Filename → ℚ) (pb pa : ℚ)
    (img aud : Filename) :
    build_timeline dur pb pa [(img, aud)] =
      .ok ([Segment.slide img aud (dur aud)], dur aud) := by
  simp [build_timeline, timelineLoop]

theorem timelineLoop_segments (dur : Filename → ℚ) (pb pa : ℚ)
    (n : Nat) :
    ∀ (l : List (Filename × Filename)) (i : Nat) (clips : List Segment)
      (total : ℚ),
      (timelineLoop dur pb pa n i l clips total).1 =
        clips ++ ((l.enumFrom i).map (fun q =>
          (if 0 < q.1 ∧ 0 < pb then [Segment.pause q.2.1 pb] else []) ++
          [Segment.slide q.2.1 q.2.2 (dur q.2.2)] ++
          (if q.1 < n - 1 ∧ 0 < pa then [Segment.pause q.2.1 pa]
           else []))).flatten := by
  intro l
  induction l with
  | nil => intro i clips total; simp [timelineLoop]
  | cons hd t ih =>
      intro i clips total
      obtain ⟨img, aud⟩ := hd
      simp only [timelineLoop]
      rw [ih (i + 1)]
      simp only [List.enumFrom_cons, List.map_cons, List.flatten_cons]
      split_ifs <;> simp [List.append_assoc]

/-- C6: every pause segment the loop emits belongs to the group of the
pair being processed and shows that pair's own image: the emitted clip
list decomposes per pair into (optional pause-before with the current
image and duration pauseBefore, the slide clip, optional pause-after
with the current image and duration pauseAfter), with the pauses
emitted exactly when i is greater than 0 / less than n-1 and the pause
value is positive. -/
theorem spec_C6_pause_images (dur : Filename → ℚ) (pb pa : ℚ)
    (pairs : List (Filename × Filename)) :
    (timelineLoop dur pb pa pairs.length 0 pairs [] 0).1 =
      (pairs.enum.map (fun q =>
        (if 0 < q.1 ∧ 0 < pb then [Segment.pause q.2.1 pb] else []) ++
        [Segment.slide q.2.1 q.2.2 (dur q.2.2)] ++
        (if q.1 < pairs.length - 1 ∧ 0 < pa then [Segment.pause q.2.1 pa]
         else []))).flatten := by
  have h := timelineLoop_segments dur pb pa pairs.length pairs 0 [] 0
  simpa [List.enum] using h

/-- C8: the timeline-building stage rejects an empty pair list with the
empty-timeline error, for every duration function and pause values,
before any clip is produced. -/
theorem spec_C8_empty_guard (dur : Filename → ℚ) (pb pa : ℚ) :
    build_timeline dur pb pa [] = .error .emptyTimeline := rfl

/-! ### Resource-lifecycle proofs -/

/-- C7 counterexample: with one slide pair, when the slide ImageClip
open inside create_slide_clip fails after the AudioFileClip was opened,
the audio handle survives the finally block: generate_video does not
release every opened handle on every exit path. -/
theorem spec_C7_counterexample : generate_video_run leakEnv 0 0 1 ≠ [] := by
  decide

theorem foldl_closeClip_openH :
    ∀ (clips : Clips) (s : MState),
      (∀ x ∈ s.openH, x ∈ clips.flatten) →
      (clips.foldl closeClip s).openH = [] := by
  intro clips
  induction clips with
  | nil =>
      intro s h
      simp only [List.foldl_nil]
      rw [List.eq_nil_iff_forall_not_mem]
      intro x hx
      simpa using h x hx
  | cons c t ih =>
      intro s h
      simp only [List.foldl_cons]
      apply ih
      intro x hx
      simp only [closeClip, List.mem_filter, decide_eq_true_eq] at hx
      obtain ⟨hx1, hx2⟩ := hx
      have hj := h x hx1
      simp only [List.flatten_cons, List.mem_append] at hj
      rcases hj with hj | hj
      · exact absurd hj hx2
      · exact hj

theorem cleanup_none_openH (clips : Clips) (s : MState)
    (hsub : ∀ x ∈ s.openH, x ∈ clips.flatten) :
    (cleanup none clips s).openH = [] :=
  foldl_closeClip_openH clips s hsub

theorem cleanup_final_openH (c : List Nat) (clips : Clips) (s : MState)
    (hsub : ∀ x ∈ s.openH, x ∈ clips.flatten ∨ x ∈ c) :
    (cleanup (some c) clips s).openH = [] := by
  apply foldl_closeClip_openH
  intro x hx
  simp only [closeClip, List.mem_filter, decide_eq_true_eq] at hx
  obtain ⟨hx1, hx2⟩ := hx
  rcases hsub x hx1 with h | h
  · exact h
  · exact absurd h hx2

theorem pauseStep_inv (b : Bool) (clips : Clips) (s : MState)
    (h : InvCS (clips, s)) : InvCS (stepOut (pauseStep b clips s)) := by
  unfold pauseStep
  cases b with
  | true => simpa [stepOut] using h
  | false =>
      simp only [Bool.false_eq_true, if_false, stepOut]
      intro x hx
      simp only [acquire, List.mem_append] at hx
      rcases hx with hx | hx
      · have := h x hx
        simp only [List.flatten_append, List.mem_append]
        exact Or.inl this
      · simp only [List.flatten_append, List.mem_append]
        right
        simpa using hx

theorem slideClipStep_inv (env : FailureEnv) (i : Nat) (clips : Clips)
    (s : MState) (hi : env.slideImageFails i = false)
    (h : InvCS (clips, s)) :
    InvCS (stepOut (slideClipStep env i clips s)) := by
  unfold slideClipStep
  cases ha : env.audioOpenFails i with
  | true => simpa [stepOut, ha] using h
  | false =>
      simp only [ha, Bool.false_eq_true, if_false, hi, stepOut]
      intro x hx
      simp only [acquire, List.mem_append, List.append_assoc] at hx
      simp only [List.flatten_append, List.mem_append]
      rcases hx with hx | hx
      · exact Or.inl (h x hx)
      · right
        simp [acquire] at hx ⊢
        tauto

theorem ite_pause_inv (c : Prop) [Decidable c] (b : Bool) (clips : Clips)
    (s : MState) (h : InvCS (clips, s)) :
    InvCS (stepOut (if c then pauseStep b clips s
      else .ok (clips, s))) := by
  by_cases hc : c
  · rw [if_pos hc]
    exact pauseStep_inv b clips s h
  · rw [if_neg hc]
    simpa [stepOut] using h

theorem assembleLoop_inv (env : FailureEnv) (pb pa : ℚ) (n : Nat)
    (hsafe : ∀ i, env.slideImageFails i = false) :
    ∀ (idxs : List Nat) (clips : Clips) (s : MState),
      InvCS (clips, s) →
      InvCS (stepOut (assembleLoop env pb pa n idxs clips s)) := by
  intro idxs
  induction idxs with
  | nil =>
      intro clips s h
      simpa [assembleLoop, stepOut] using h
  | cons i rest ih =>
      intro clips s h
      simp only [assembleLoop]
      have h1 := ite_pause_inv (0 < i ∧ 0 < pb) (env.pauseBeforeFails i)
        clips s h
      rcases e1 : (if 0 < i ∧ 0 < pb then
          pauseStep (env.pauseBeforeFails i) clips s
        else Except.ok (clips, s)) with p1 | p1
      · rw [e1] at h1
        simp only [e1]
        simpa [stepOut] using h1
      · rw [e1] at h1
        simp only [e1]
        obtain ⟨clips1, s1⟩ := p1
        have h2 := slideClipStep_inv env i clips1 s1 (hsafe i)
          (by simpa [stepOut] using h1)
        rcases e2 : slideClipStep env i clips1 s1 with p2 | p2
        · rw [e2] at h2
          simp only [e2]
          simpa [stepOut] using h2
        · rw [e2] at h2
          simp only [e2]
          obtain ⟨clips2, s2⟩ := p2
          have h3 := ite_pause_inv (i < n - 1 ∧ 0 < pa)
            (env.pauseAfterFails i) clips2 s2
            (by simpa [stepOut] using h2)
          rcases e3 : (if i < n - 1 ∧ 0 < pa then
              pauseStep (env.pauseAfterFails i) clips2 s2
            else Except.ok (clips2, s2)) with p3 | p3
          · rw [e3] at h3
            simp only [e3]
            simpa [stepOut] using h3
          · rw [e3] at h3
            simp only [e3]
            obtain ⟨clips3, s3⟩ := p3
            exact ih clips3 s3 (by simpa [stepOut] using h3)

/-- C7 amended: provided no failure strikes between the audio open and
the image open inside create_slide_clip (the slide image opens never
fail), the finally block releases every handle on every exit path —
pause-open failures, audio-open failures, concatenation failure and
write failure included. -/
theorem spec_C7_amended (env : FailureEnv) (pb pa : ℚ) (n : Nat)
    (hsafe : ∀ i, env.slideImageFails i = false) :
    generate_video_run env pb pa n = [] := by
  unfold generate_video_run
  have hloop := assembleLoop_inv env pb pa n hsafe (List.range n) []
    ⟨0, []⟩ (by intro x hx; simp at hx)
  rcases e : assembleLoop env pb pa n (List.range n) [] ⟨0, []⟩
    with p | p
  · rw [e] at hloop
    simp only [e]
    simp only [stepOut] at hloop
    exact cleanup_none_openH p.1 p.2 hloop
  · rw [e] at hloop
    simp only [e]
    simp only [stepOut] at hloop
    by_cases hc : env.concatFails = true
    · rw [if_pos hc]
      exact cleanup_none_openH p.1 p.2 hloop
    · rw [if_neg hc]
      have hfin : ∀ x ∈ (acquire p.2).2.openH,
          x ∈ p.1.flatten ∨ x ∈ [(acquire p.2).1] := by
        intro x hx
        simp only [acquire, List.mem_append] at hx
        rcases hx with hx | hx
        · exact Or.inl (hloop x hx)
        · right
          simpa [acquire] using hx
      by_cases hw : env.writeFails = true
      · rw [if_pos hw]
        exact cleanup_final_openH _ p.1 (acquire p.2).2 hfin
      · rw [if_neg hw]
        exact cleanup_final_openH _ p.1 (acquire p.2).2 hfin

/-- Witness for the amended C7: two pairs, failing concatenation, all
handles released. -/
theorem spec_C7_amended_witness : generate_video_run cleanEnv 1 1 2 = [] :=
  spec_C7_amended cleanEnv 1 1 2 (fun _ => rfl)
